import Mathlib

/-!
Verification of the shortener service core (link records, short-code
generation, resolution, batched mutations, expiration sweep) as a shallow
embedding of the TypeScript source.

Conventions:
* Machine timestamps (epoch milliseconds) are `Int`; JS `undefined`/absent
  optional values are `Option`.
* `Date.now()` is passed explicitly as a `now : Int` argument.
* The SHA-256 + hex digest from the vendored `@noble/hashes` library is
  modelled as an abstract `digest : String → String` parameter; the
  repository's own code only concatenates `domain ++ ":" ++ code` and treats
  the digest output as an opaque key.
* `Math.random()`-derived values are passed as explicit inputs
  (`RandInput`, and `Nat → RandInput` streams for retry loops).
* The Cloudflare KV cache is modelled by the list of cache operations a
  handler emits (`CacheOp`) plus an association-list cache state that those
  operations act on; the database is a list of rows in insertion order.
-/

namespace Shortener

/-- Link row from `src/database/schema.ts` (`links` table).  The surrogate
`id` and the `createdAt`/`updatedAt` tracking timestamps are omitted: they
are write-only bookkeeping that no verified property mentions. -/
structure LinkRecord where
  url : String
  userId : String
  expiresAt : Option Int
  hash : String
  shortCode : String
  domain : String
  -- the `attribute` column (opaque caller blob); `attribute` is a Lean keyword
  attr : Option String
  isDeleted : Nat
deriving DecidableEq, Repr

/-- The durable store: rows in insertion order. -/
abbrev Store := List LinkRecord

/-- Query `db.select().from(links).where(eq(links.hash, h)).get()` — first row
with the given hash, soft-deleted rows included. -/
def selectByHash (db : Store) (h : String) : Option LinkRecord :=
  db.find? (fun r => r.hash == h)

/-- Helper `notDeleted` from `src/lib/db-utils.ts`: `eq(links.isDeleted, 0)`. -/
def rowNotDeleted (r : LinkRecord) : Bool :=
  r.isDeleted == 0

/-- Query `db.select().from(links).where(withNotDeleted(links, eq(links.hash, h))).get()`. -/
def selectNotDeletedByHash (db : Store) (h : String) : Option LinkRecord :=
  db.find? (fun r => rowNotDeleted r && r.hash == h)

/-- Update `db.update(links).set(f).where(p)` — apply `f` to every row matching `p`. -/
def updateWhere (db : Store) (p : LinkRecord → Bool) (f : LinkRecord → LinkRecord) : Store :=
  db.map (fun r => if p r then f r else r)

/-- Helper `softDelete()` from `src/lib/db-utils.ts`: sets `isDeleted := 1`
(the accompanying `updatedAt` touch is omitted with the timestamps). -/
def softDeleteFields (r : LinkRecord) : LinkRecord :=
  { r with isDeleted := 1 }

/-- One operation issued against the KV cache. -/
inductive CacheOp where
  | get (key : String)
  | put (key value : String) (ttlSeconds : Nat)
  | del (key : String)
deriving DecidableEq, Repr

/-- KV cache state: key / value / ttl triples, newest first. -/
abbrev Cache := List (String × String × Nat)

def cacheLookup (c : Cache) (k : String) : Option (String × Nat) :=
  (c.find? (fun e => e.1 == k)).map (fun e => e.2)

def applyOp (c : Cache) : CacheOp → Cache
  | .get _ => c
  | .put k v ttl => (k, v, ttl) :: c.filter (fun e => !(e.1 == k))
  | .del k => c.filter (fun e => !(e.1 == k))

def applyOps (c : Cache) (ops : List CacheOp) : Cache :=
  ops.foldl applyOp c

/-! ### JS helpers: truthiness and string search -/

/-- JS `x || dflt` for an optional number (`0` is falsy). -/
def jsOrNum (v : Option Int) (dflt : Int) : Int :=
  match v with
  | none => dflt
  | some x => if x = 0 then dflt else x

/-- JS `s || dflt` for an optional string (`""` is falsy). -/
def jsOrStr (v : Option String) (dflt : String) : String :=
  match v with
  | none => dflt
  | some s => if s = "" then dflt else s

/-- JS truthiness of an optional string field (`if (record.hash)`). -/
def jsTruthyStr : Option String → Bool
  | none => false
  | some s => !(s == "")

def startsWithChars : List Char → List Char → Bool
  | _, [] => true
  | [], _ :: _ => false
  | a :: s, b :: p => a == b && startsWithChars s p

def listIncludes (s pat : List Char) : Bool :=
  match s with
  | [] => startsWithChars [] pat
  | _ :: s' => startsWithChars s pat || listIncludes s' pat

/-- JS `s.includes(pat)`. -/
def strIncludes (s pat : String) : Bool :=
  listIncludes s.data pat.data

def isJsWhitespace (c : Char) : Bool :=
  c == ' ' || c == '\t' || c == '\n' || c == '\r'

/-- JS `!s || s.trim() === ''`. -/
def trimIsEmpty (s : String) : Bool :=
  s.data.all isJsWhitespace

/-! ### `src/utils/hash.ts` -/

/-- Constant `BASE62_CHARS` from `src/utils/hash.ts`. -/
def BASE62_CHARS : List Char :=
  "0123456789ABCDEFGHIJKLMNOPQRSTUVWXYZabcdefghijklmnopqrstuvwxyz".data

/-- Lookup `BASE62_CHARS[i]` for an in-range index. -/
def base62Char (i : Nat) : Char :=
  BASE62_CHARS.getD i '0'

/-- The digit list built by `toBase62`'s `while (num > 0)` loop
(least-significant digit prepended last, i.e. most-significant first).
`fuel ≥ num` guarantees full evaluation; structural recursion keeps the
definition kernel-reducible. -/
def toBase62Go : Nat → Nat → List Char
  | 0, _ => []
  | fuel + 1, n =>
    if n = 0 then [] else toBase62Go fuel (n / 62) ++ [base62Char (n % 62)]

/-- Function `toBase62` from `src/utils/hash.ts`. -/
def toBase62 (num : Nat) : String :=
  if num = 0 then "0" else String.mk (toBase62Go num num)

/-- The random inputs one call of `generateRandomHash` draws:
`Date.now()`, `Math.floor(Math.random() * 1000000)`, and the stream of
`Math.floor(Math.random() * BASE62_CHARS.length)` indices used while
padding. -/
structure RandInput where
  timestamp : Nat
  random : Fin 1000000
  padRand : Nat → Fin 62

/-- The `while (shortCode.length < length)` padding loop of
`generateRandomHash`: prepend a random base62 character until the target
length is reached.  `fuel ≥ targetLen` suffices. -/
def padWhile (pads : Nat → Fin 62) (targetLen : Nat) : Nat → Nat → List Char → List Char
  | 0, _, s => s
  | fuel + 1, i, s =>
    if s.length < targetLen then
      padWhile pads targetLen fuel (i + 1) (base62Char (pads i) :: s)
    else s

/-- JS `s.slice(-n)`: the last `n` characters. -/
def sliceLast (s : List Char) (n : Nat) : List Char :=
  s.drop (s.length - n)

/-- Function `generateRandomHash` from `src/utils/hash.ts` (the base62 + timestamp
variant): combine `Date.now() % 1000000` with a random 6-digit number,
base62-encode, left-pad with random characters up to `length`, and slice
down to the last `length` characters if too long. -/
def generateRandomHash (ri : RandInput) (length : Nat := 8) : String :=
  let combined := (ri.timestamp % 1000000) * 1000000 + (ri.random : Nat)
  let shortCode := (toBase62 combined).data
  let padded := padWhile ri.padRand length length 0 shortCode
  let final := if padded.length > length then sliceLast padded length else padded
  String.mk final

/-- Function `generateHashFromDomainAndCode`: `bytesToHex(sha256(domain ++ ":" ++ code))`
with the vendored digest abstracted as `digest`. -/
def generateHashFromDomainAndCode (digest : String → String)
    (domain shortCode : String) : String :=
  digest (domain ++ ":" ++ shortCode)

/-- Function `getDefaultExpiresAt`: `setHours(getHours() + 1)` on the runtime's UTC
clock adds exactly one hour, i.e. 3 600 000 ms. -/
def getDefaultExpiresAt (now : Int) : Int :=
  now + 3600000

/-- Function `isExpired` from `src/utils/hash.ts`, and the inline route check
`urlData.expiresAt && Date.now() > urlData.expiresAt`: a missing (or JS-falsy
`0`) `expiresAt` never expires; otherwise expired iff `now > expiresAt`. -/
def isExpiredAt (now : Int) : Option Int → Bool
  | none => false
  | some v => if v = 0 then false else decide (now > v)

/-! ### Resolution routes (`redirectRoute` / `ogPageRoute`) -/

/-- A transport-agnostic view of the handler responses. -/
inductive HttpResponse where
  | redirect (location : String) (status : Nat)
  | jsonError (code : Nat) (message : String)
  | htmlPage (body : String)
deriving DecidableEq, Repr

/-- Function `escapeHtml` (chained global `String.replace` calls, in source order). -/
def escapeHtml (raw : String) : String :=
  ((((raw.replace "&" "&amp;").replace "<" "&lt;").replace ">" "&gt;").replace
    "\"" "&quot;").replace "\x27" "&#039;"

/-- Function `generateOgPageHtml`: the rendered preview document, referencing the
escaped target URL in the OG meta tag, the script/noscript redirects and the
visible link. -/
def generateOgPageHtml (targetUrl : String) : String :=
  let escapedUrl := escapeHtml targetUrl
  "<!DOCTYPE html>\n<html lang=\"en\">\n  <head>\n    <meta charset=\"UTF-8\">\n    <meta name=\"viewport\" content=\"width=device-width, initial-scale=1.0\">\n    <title>@cdlab/shortener</title>\n    <meta property=\"og:url\" content=\"" ++
    escapedUrl ++
    "\" />\n    <meta property=\"og:type\" content=\"website\" />\n    <meta name=\"robots\" content=\"noindex, nofollow\" />\n    <script>\n      window.location.replace(\x27" ++
    escapedUrl ++
    "\x27);\n    </script>\n    <noscript>\n      <meta http-equiv=\"refresh\" content=\"0;url=" ++
    escapedUrl ++
    "\" />\n    </noscript>\n  </head>\n  <body>\n    <p>Redirecting to <a href=\"" ++
    escapedUrl ++ "\">" ++ escapedUrl ++
    "</a>...</p>\n  </body>\n</html>"

/-- The "skip common browser requests" guard shared by both shortcode
routes: literal well-known file names or any short code containing a dot. -/
def isSkipName (shortCode : String) : Bool :=
  shortCode == "favicon.ico" || shortCode == "robots.txt" ||
  shortCode == "sitemap.xml" || strIncludes shortCode "."

/-- Crawler detection: `userAgent.includes('facebookexternalhit') ||
userAgent.includes('twitterbot')`. -/
def isCrawlerUA (userAgent : String) : Bool :=
  strIncludes userAgent "facebookexternalhit" || strIncludes userAgent "twitterbot"

/-- Route `GET /{shortCode}` (`redirectRoute` handler).  Output: the HTTP response
together with the list of KV cache operations the handler performed (the
source performs none on this path). -/
def redirectHandler (digest : String → String) (db : Store)
    (domain shortCode userAgent : String) (now : Int) :
    HttpResponse × List CacheOp :=
  if isSkipName shortCode then
    (.jsonError 404 "Not Found", [])
  else if isCrawlerUA userAgent then
    (.redirect ("/" ++ shortCode ++ "/og") 302, [])
  else
    let hash := generateHashFromDomainAndCode digest domain shortCode
    match selectNotDeletedByHash db hash with
    | none => (.jsonError 404 "Short code not found or expired", [])
    | some urlData =>
      if isExpiredAt now urlData.expiresAt then
        (.jsonError 404 "Short code not found or expired", [])
      else
        (.redirect urlData.url 302, [])

/-- Route `GET /{shortCode}/og` (`ogPageRoute` handler). -/
def ogPageHandler (digest : String → String) (db : Store)
    (domain shortCode : String) (now : Int) :
    HttpResponse × List CacheOp :=
  if isSkipName shortCode then
    (.jsonError 404 "Not Found", [])
  else if trimIsEmpty shortCode then
    (.jsonError 400 "Short code not provided or invalid", [])
  else
    let hash := generateHashFromDomainAndCode digest domain shortCode
    match selectNotDeletedByHash db hash with
    | none => (.jsonError 404 "Short code not found", [])
    | some urlData =>
      if isExpiredAt now urlData.expiresAt then
        (.jsonError 404 "Short code expired", [])
      else
        (.htmlPage (generateOgPageHtml urlData.url), [])

/-! ### Mutation service (`POST/PUT/DELETE /api/url` handlers) -/

/-- One element of `records` in a create request (`urlRecordSchema`).  The
`hash` field carries the optional caller-supplied custom short code, as in
the source. -/
structure CreateRecord where
  url : String
  hash : Option String
  expiresAt : Option Int
  userId : Option String
  attr : Option String
deriving DecidableEq, Repr

/-- Observable events of one `generateUniqueHash` run: the probe of attempt
`n` with its candidate code and requested length, and the random backoff
delay awaited after a colliding attempt `n`. -/
inductive GenEvent where
  | attemptEv (attempt : Nat) (shortCode : String) (length : Nat)
  | delayEv (afterAttempt : Nat)
deriving DecidableEq, Repr

/-- Source expression `const length = attempt <= 5 ? 8 : attempt <= 10 ? 9 : 10`. -/
def lengthForAttempt (attempt : Nat) : Nat :=
  if attempt ≤ 5 then 8 else if attempt ≤ 10 then 9 else 10

/-- The candidate short code drawn at a given attempt, from the per-item
randomness stream. -/
def genCandidate (rand : Nat → RandInput) (attempt : Nat) : String :=
  generateRandomHash (rand attempt) (lengthForAttempt attempt)

/-- The `for (let attempt = 1; attempt <= maxRetries; attempt++)` loop of
`generateUniqueHash`: draw a candidate of the attempt-dependent length, hash
it, probe the store; return on a free hash, otherwise retry, awaiting a
random backoff when `attempt > 5`.  `remaining` counts the attempts left. -/
def genAttempts (digest : String → String) (db : Store) (domain : String)
    (rand : Nat → RandInput) (maxRetries : Nat) :
    Nat → Nat → List GenEvent × Except String (String × String)
  | _, 0 =>
    ([], .error ("Failed to generate unique hash after " ++
      toString maxRetries ++ " attempts"))
  | attempt, remaining + 1 =>
    let shortCode := genCandidate rand attempt
    let hash := generateHashFromDomainAndCode digest domain shortCode
    let ev := GenEvent.attemptEv attempt shortCode (lengthForAttempt attempt)
    match selectByHash db hash with
    | none => ([ev], .ok (shortCode, hash))
    | some _ =>
      let rest := genAttempts digest db domain rand maxRetries (attempt + 1) remaining
      if 5 < attempt then (ev :: GenEvent.delayEv attempt :: rest.1, rest.2)
      else (ev :: rest.1, rest.2)

/-- Function `generateUniqueHash(record, domain, maxRetries = 15)`: prioritize a
truthy caller-supplied custom code (fail on an existing hash, no retry);
otherwise run the random-candidate retry loop. -/
def generateUniqueHash (digest : String → String) (db : Store) (domain : String)
    (record : CreateRecord) (rand : Nat → RandInput) (maxRetries : Nat := 15) :
    List GenEvent × Except String (String × String) :=
  if jsTruthyStr record.hash then
    let code := record.hash.getD ""
    let hash := generateHashFromDomainAndCode digest domain code
    match selectByHash db hash with
    | some _ =>
      ([], .error ("Custom short code \"" ++ code ++
        "\" already exists for domain " ++ domain))
    | none => ([], .ok (code, hash))
  else
    genAttempts digest db domain rand maxRetries 1 maxRetries

/-- Per-item outcome entry, as assembled by the route handlers.  The create
handler's extra echo fields (`shortUrl`, `url`, `expiresAt`) are response
decoration no claim mentions and are omitted. -/
structure ItemResult where
  hash : String
  success : Bool
  error : Option String
deriving DecidableEq, Repr

/-- A serialized record snapshot standing for the `JSON.stringify(cacheData)`
value written on create; no claim inspects the encoding. -/
def cacheSnapshot (r : LinkRecord) : String :=
  r.url ++ "|" ++ r.hash ++ "|" ++ r.shortCode ++ "|" ++ r.domain ++ "|" ++ r.userId

/-- Everything one create item produces: the resulting store, the KV
operations, the generator event trace and the per-item result entry. -/
structure CreateItemOut where
  store : Store
  cacheOps : List CacheOp
  genTrace : List GenEvent
  result : ItemResult
deriving DecidableEq, Repr

/-- Processing of one record in the `POST /api/url` handler: generate a
unique (shortCode, hash) pair, default `expiresAt` via JS `||`, insert, and
best-effort populate `url:{hash}` with a fixed TTL of 3600 seconds; a
generation failure is captured in the item's failure entry and leaves the
store untouched. -/
def processCreateItem (digest : String → String) (rand : Nat → RandInput)
    (kvPresent : Bool) (db : Store) (domain : String) (record : CreateRecord)
    (now : Int) : CreateItemOut :=
  let gen := generateUniqueHash digest db domain record rand 15
  match gen.2 with
  | .error msg =>
    { store := db, cacheOps := [], genTrace := gen.1,
      result := { hash := jsOrStr record.hash "unknown", success := false,
                  error := some msg } }
  | .ok (shortCode, hash) =>
    let expires := jsOrNum record.expiresAt (getDefaultExpiresAt now)
    let newRec : LinkRecord :=
      { url := record.url, userId := jsOrStr record.userId "",
        expiresAt := some expires, hash := hash, shortCode := shortCode,
        domain := domain, attr := record.attr, isDeleted := 0 }
    let ops := if kvPresent then
        [CacheOp.put ("url:" ++ hash) (cacheSnapshot newRec) 3600] else []
    { store := db ++ [newRec], cacheOps := ops, genTrace := gen.1,
      result := { hash := hash, success := true, error := none } }

/-- One element of `records` in an update request (`updateUrlRecordSchema`):
`hash` is required, all updatable fields optional. -/
structure UpdateRecord where
  hash : String
  url : Option String
  userId : Option String
  expiresAt : Option Int
  attr : Option String
deriving DecidableEq, Repr

/-- Check `Object.keys(fieldsToUpdate).length > 0` after filtering `undefined`. -/
def hasFieldsToUpdate (u : UpdateRecord) : Bool :=
  u.url.isSome || u.userId.isSome || u.expiresAt.isSome || u.attr.isSome

/-- Drizzle `.set(fieldsToUpdate)`: overwrite exactly the provided fields. -/
def applyUpdateFields (u : UpdateRecord) (r : LinkRecord) : LinkRecord :=
  { r with
    url := u.url.getD r.url,
    userId := u.userId.getD r.userId,
    expiresAt := match u.expiresAt with | some v => some v | none => r.expiresAt,
    attr := match u.attr with | some a => some a | none => r.attr }

/-- Outcome of one update or soft-delete item. -/
structure MutationItemOut where
  store : Store
  cacheOps : List CacheOp
  result : ItemResult
deriving DecidableEq, Repr

/-- Processing of one record in the `PUT /api/url` handler: look up the
non-deleted row by hash; absent ⇒ failure; with at least one provided field,
write those fields and clear `url:{hash}`; with none, fail with
"No fields to update" (and, notably, without touching the cache). -/
def processUpdateItem (kvPresent : Bool) (db : Store) (record : UpdateRecord) :
    MutationItemOut :=
  match selectNotDeletedByHash db record.hash with
  | none =>
    { store := db, cacheOps := [],
      result := { hash := record.hash, success := false,
                  error := some "Record not found or already deleted" } }
  | some _ =>
    if hasFieldsToUpdate record then
      let db' := updateWhere db
        (fun r => rowNotDeleted r && r.hash == record.hash)
        (applyUpdateFields record)
      let ops := if kvPresent then [CacheOp.del ("url:" ++ record.hash)] else []
      { store := db', cacheOps := ops,
        result := { hash := record.hash, success := true, error := none } }
    else
      { store := db, cacheOps := [],
        result := { hash := record.hash, success := false,
                    error := some "No fields to update" } }

/-- Processing of one hash in the `DELETE /api/url` handler: look up the
non-deleted row; present ⇒ soft-delete it and clear both `url:{hash}` and
`og:{hash}`; absent ⇒ failure entry. -/
def processDeleteItem (kvPresent : Bool) (db : Store) (hash : String) :
    MutationItemOut :=
  match selectNotDeletedByHash db hash with
  | some _ =>
    let db' := updateWhere db (fun r => r.hash == hash) softDeleteFields
    let ops := if kvPresent then
        [CacheOp.del ("url:" ++ hash), CacheOp.del ("og:" ++ hash)] else []
    { store := db', cacheOps := ops,
      result := { hash := hash, success := true, error := none } }
  | none =>
    { store := db, cacheOps := [],
      result := { hash := hash, success := false,
                  error := some "Record not found or already deleted" } }

/-- The batch combinator shared by all three handlers: each item is mapped
through its own try/catch-style total step, every item yields exactly one
result.  The source fans items out with `Promise.all` over the shared store;
this models the sequential interleaving of those item tasks. -/
def batchRun (step : Store → α → Store × ItemResult) :
    Store → List α → Store × List ItemResult
  | db, [] => (db, [])
  | db, x :: xs =>
    let hd := step db x
    let tl := batchRun step hd.1 xs
    (tl.1, hd.2 :: tl.2)

/-- A create item bundled with its own randomness stream (each `Promise.all`
task draws from `Math.random` independently). -/
abbrev CreateItem := CreateRecord × (Nat → RandInput)

def createStep (digest : String → String) (kvPresent : Bool) (domain : String)
    (now : Int) (db : Store) (item : CreateItem) : Store × ItemResult :=
  let out := processCreateItem digest item.2 kvPresent db domain item.1 now
  (out.store, out.result)

/-- Route `POST /api/url`: process all records, collecting per-item results. -/
def createMany (digest : String → String) (kvPresent : Bool) (domain : String)
    (now : Int) (db : Store) (items : List CreateItem) :
    Store × List ItemResult :=
  batchRun (createStep digest kvPresent domain now) db items

def updateStep (kvPresent : Bool) (db : Store) (record : UpdateRecord) :
    Store × ItemResult :=
  let out := processUpdateItem kvPresent db record
  (out.store, out.result)

/-- Route `PUT /api/url`: process all records, collecting per-item results. -/
def updateMany (kvPresent : Bool) (db : Store) (records : List UpdateRecord) :
    Store × List ItemResult :=
  batchRun (updateStep kvPresent) db records

def deleteStep (kvPresent : Bool) (db : Store) (hash : String) :
    Store × ItemResult :=
  let out := processDeleteItem kvPresent db hash
  (out.store, out.result)

/-- Route `DELETE /api/url`: process all hashes, collecting per-item results. -/
def softDeleteMany (kvPresent : Bool) (db : Store) (hashes : List String) :
    Store × List ItemResult :=
  batchRun (deleteStep kvPresent) db hashes

/-- Handler expression `results.filter(r => r.success)`. -/
def batchSuccesses (rs : List ItemResult) : List ItemResult :=
  rs.filter (fun r => r.success)

/-- Handler expression `results.filter(r => !r.success)`. -/
def batchFailures (rs : List ItemResult) : List ItemResult :=
  rs.filter (fun r => !r.success)

/-- The zod `.min(1).max(100)` bound shared by `createUrlRequestSchema`,
`updateUrlRequestSchema` and `deleteUrlRequestSchema`. -/
def batchSizeAccepted (n : Nat) : Bool :=
  decide (1 ≤ n) && decide (n ≤ 100)

def createRequestAccepted (records : List CreateRecord) : Bool :=
  batchSizeAccepted records.length

def updateRequestAccepted (records : List UpdateRecord) : Bool :=
  batchSizeAccepted records.length

def deleteRequestAccepted (hashList : List String) : Bool :=
  batchSizeAccepted hashList.length

/-! ### Batch combinator lemmas -/

theorem batchRun_length (step : Store → α → Store × ItemResult) :
    ∀ (items : List α) (db : Store),
      ((batchRun step db items).2).length = items.length := by
  intro items
  induction items with
  | nil => intro db; rfl
  | cons x xs ih =>
    intro db
    simp only [batchRun, List.length_cons]
    rw [ih]

theorem filter_partition_perm (p : α → Bool) (l : List α) :
    List.Perm (l.filter p ++ l.filter (fun a => !(p a))) l := by
  induction l with
  | nil => simp
  | cons a l ih =>
    by_cases h : p a
    · simp only [List.filter_cons, h, Bool.not_true, if_true, if_false,
        List.cons_append]
      exact List.Perm.cons a ih
    · simp only [List.filter_cons, h, Bool.not_false, if_true, if_false]
      simp only [Bool.not_eq_true] at h
      simp only [h, Bool.not_false, if_true, Bool.false_eq_true, if_false]
      exact List.perm_middle.trans (List.Perm.cons a ih)

theorem batchRun_append (step : Store → α → Store × ItemResult) :
    ∀ (xs ys : List α) (db : Store),
      batchRun step db (xs ++ ys) =
        ((batchRun step (batchRun step db xs).1 ys).1,
          (batchRun step db xs).2 ++
            (batchRun step (batchRun step db xs).1 ys).2) := by
  intro xs
  induction xs with
  | nil => intro ys db; simp [batchRun]
  | cons x xs ih =>
    intro ys db
    simp only [List.cons_append, batchRun, List.append_eq]
    rw [ih]

theorem createStep_fail_frame (digest : String → String) (kv : Bool)
    (domain : String) (now : Int) (db : Store) (it : CreateItem)
    (h : (createStep digest kv domain now db it).2.success = false) :
    (createStep digest kv domain now db it).1 = db := by
  cases hg : (generateUniqueHash digest db domain it.1 it.2 15).2 with
  | error msg => simp [createStep, processCreateItem, hg]
  | ok pair =>
    obtain ⟨sc, hsh⟩ := pair
    simp [createStep, processCreateItem, hg] at h

theorem updateStep_fail_frame (kv : Bool) (db : Store) (u : UpdateRecord)
    (h : (updateStep kv db u).2.success = false) :
    (updateStep kv db u).1 = db := by
  cases hf : selectNotDeletedByHash db u.hash with
  | none => simp [updateStep, processUpdateItem, hf]
  | some r =>
    by_cases hfu : hasFieldsToUpdate u
    · simp [updateStep, processUpdateItem, hf, hfu] at h
    · simp only [Bool.not_eq_true] at hfu
      simp [updateStep, processUpdateItem, hf, hfu]

theorem deleteStep_fail_frame (kv : Bool) (db : Store) (hsh : String)
    (h : (deleteStep kv db hsh).2.success = false) :
    (deleteStep kv db hsh).1 = db := by
  cases hf : selectNotDeletedByHash db hsh with
  | none => simp [deleteStep, processDeleteItem, hf]
  | some r => simp [deleteStep, processDeleteItem, hf] at h

/-- C6: Batch semantics of `CreateMany`, `UpdateMany` and
`SoftDeleteMany`: the request validators accept exactly 1–100 items; each
batch yields exactly one result per input item, and the handler's
successes/failures split is a partition (a permutation) of those per-item
results; and the generic fold decomposition shows a store-preserving step —
which every failing item is, by the three `*_fail_frame` conjuncts — leaves
every sibling item's processing exactly as if the failed item were absent:
one item's failure never aborts or alters the others. -/
theorem batch_partition_and_isolation :
    (∀ n : Nat, batchSizeAccepted n = true ↔ (1 ≤ n ∧ n ≤ 100)) ∧
    (∀ records : List CreateRecord, createRequestAccepted records = true ↔
      (1 ≤ records.length ∧ records.length ≤ 100)) ∧
    (∀ records : List UpdateRecord, updateRequestAccepted records = true ↔
      (1 ≤ records.length ∧ records.length ≤ 100)) ∧
    (∀ hashList : List String, deleteRequestAccepted hashList = true ↔
      (1 ≤ hashList.length ∧ hashList.length ≤ 100)) ∧
    (∀ (digest : String → String) (kv : Bool) (domain : String) (now : Int)
        (db : Store) (items : List CreateItem),
      ((createMany digest kv domain now db items).2).length = items.length ∧
      List.Perm
        (batchSuccesses (createMany digest kv domain now db items).2 ++
          batchFailures (createMany digest kv domain now db items).2)
        (createMany digest kv domain now db items).2) ∧
    (∀ (kv : Bool) (db : Store) (records : List UpdateRecord),
      ((updateMany kv db records).2).length = records.length ∧
      List.Perm
        (batchSuccesses (updateMany kv db records).2 ++
          batchFailures (updateMany kv db records).2)
        (updateMany kv db records).2) ∧
    (∀ (kv : Bool) (db : Store) (hashes : List String),
      ((softDeleteMany kv db hashes).2).length = hashes.length ∧
      List.Perm
        (batchSuccesses (softDeleteMany kv db hashes).2 ++
          batchFailures (softDeleteMany kv db hashes).2)
        (softDeleteMany kv db hashes).2) ∧
    (∀ (α : Type) (step : Store → α → Store × ItemResult) (db : Store)
        (xs : List α) (a : α) (ys : List α),
      (step (batchRun step db xs).1 a).1 = (batchRun step db xs).1 →
      (batchRun step db (xs ++ a :: ys)).2 =
        (batchRun step db xs).2 ++ (step (batchRun step db xs).1 a).2 ::
          (batchRun step (batchRun step db xs).1 ys).2) ∧
    (∀ (digest : String → String) (kv : Bool) (domain : String) (now : Int)
        (db : Store) (it : CreateItem),
      (createStep digest kv domain now db it).2.success = false →
      (createStep digest kv domain now db it).1 = db) ∧
    (∀ (kv : Bool) (db : Store) (u : UpdateRecord),
      (updateStep kv db u).2.success = false → (updateStep kv db u).1 = db) ∧
    (∀ (kv : Bool) (db : Store) (hsh : String),
      (deleteStep kv db hsh).2.success = false →
      (deleteStep kv db hsh).1 = db) := by
  refine ⟨?_, ?_, ?_, ?_, ?_, ?_, ?_, ?_, ?_, ?_, ?_⟩
  · intro n; simp [batchSizeAccepted]
  · intro records; simp [createRequestAccepted, batchSizeAccepted]
  · intro records; simp [updateRequestAccepted, batchSizeAccepted]
  · intro hashList; simp [deleteRequestAccepted, batchSizeAccepted]
  · intro digest kv domain now db items
    exact ⟨batchRun_length _ items db,
      filter_partition_perm (fun r : ItemResult => r.success)
        (createMany digest kv domain now db items).2⟩
  · intro kv db records
    exact ⟨batchRun_length _ records db,
      filter_partition_perm (fun r : ItemResult => r.success)
        (updateMany kv db records).2⟩
  · intro kv db hashes
    exact ⟨batchRun_length _ hashes db,
      filter_partition_perm (fun r : ItemResult => r.success)
        (softDeleteMany kv db hashes).2⟩
  · intro α step db xs a ys hframe
    rw [batchRun_append]
    simp only [batchRun]
    rw [hframe]
  · exact createStep_fail_frame
  · exact updateStep_fail_frame
  · exact deleteStep_fail_frame

theorem batch_partition_and_isolation_witness :
    (deleteStep true [] "hx").2.success = false ∧
    (deleteStep true [] "hx").1 = [] ∧
    List.Perm
      (batchSuccesses (softDeleteMany true sampleDb
          ["s.test:c1", "s.test:c1"]).2 ++
        batchFailures (softDeleteMany true sampleDb
          ["s.test:c1", "s.test:c1"]).2)
      (softDeleteMany true sampleDb ["s.test:c1", "s.test:c1"]).2 := by
  have h := batch_partition_and_isolation
  exact ⟨by decide, h.2.2.2.2.2.2.2.2.2.2 true [] "hx" (by decide),
    (h.2.2.2.2.2.2.1 true sampleDb ["s.test:c1", "s.test:c1"]).2⟩

/-! ### Expiration sweeper (`src/cron/cleanup.ts`) -/

/-- The sweep's environment: whether `env.SHORTENER_KV` is bound, and which
per-hash store/cache operations fail (with the error message the thrown
exception carries); `none` means the operation succeeds. -/
structure SweepEnv where
  kvPresent : Bool
  deleteFailure : String → Option String
  cacheFailure : String → Option String

/-- Structure `CleanupResult` from `src/cron/cleanup.ts`.  `executionTime` is
wall-clock bookkeeping and is omitted. -/
structure CleanupResult where
  deletedCount : Nat
  cacheCleanedCount : Nat
  errors : List String
deriving DecidableEq, Repr

/-- The candidate query
`where(withNotDeleted(links, lt(links.expiresAt, currentTime)))`: non-deleted
rows whose expiry is strictly below `now` (SQL `<` is false on NULL). -/
def isExpiredCandidate (now : Int) (r : LinkRecord) : Bool :=
  rowNotDeleted r &&
    (match r.expiresAt with
     | some v => decide (v < now)
     | none => false)

/-- The `for (i = 0; i < n; i += BATCH_SIZE) slice(i, i + BATCH_SIZE)`
batching loop; `fuel ≥ l.length` suffices, and every produced batch is
nonempty. -/
def splitGo : Nat → List α → Nat → List (List α)
  | 0, _, _ => []
  | fuel + 1, l, n =>
    if l.isEmpty then [] else l.take n :: splitGo fuel (l.drop n) n

def splitIntoBatches (l : List α) (n : Nat) : List (List α) :=
  splitGo l.length l n

/-- The per-batch soft-delete loop over `hashesToDelete`: a failing delete
appends its error string and moves on, a succeeding one marks the row deleted
and bumps `deletedCount`. -/
def sweepDeleteHashes (env : SweepEnv) (db : Store) :
    List String → Store × Nat × List String
  | [] => (db, 0, [])
  | h :: hs =>
    match env.deleteFailure h with
    | none =>
      let rest := sweepDeleteHashes env
        (updateWhere db (fun r => r.hash == h) softDeleteFields) hs
      (rest.1, rest.2.1 + 1, rest.2.2)
    | some m =>
      let rest := sweepDeleteHashes env db hs
      (rest.1, rest.2.1,
        ("Failed to delete link " ++ h ++ ": " ++ m) :: rest.2.2)

/-- The per-batch cache-cleanup loop: for each record, delete both
`url:{hash}` and `og:{hash}` and bump `cacheCleanedCount`, or record the
error string and move on. -/
def sweepCacheRecords (env : SweepEnv) :
    List LinkRecord → List CacheOp × Nat × List String
  | [] => ([], 0, [])
  | r :: rs =>
    let rest := sweepCacheRecords env rs
    match env.cacheFailure r.hash with
    | none =>
      (CacheOp.del ("url:" ++ r.hash) :: CacheOp.del ("og:" ++ r.hash) :: rest.1,
        rest.2.1 + 1, rest.2.2)
    | some m =>
      (rest.1, rest.2.1,
        ("Failed to clear cache for " ++ r.hash ++ ": " ++ m) :: rest.2.2)

/-- One batch of the sweep: soft-delete every hash of the batch, then (when
KV is bound) clean both cache keys of every batch record; delete errors
precede cache errors, per source order. -/
def sweepBatch (env : SweepEnv) (db : Store) (batch : List LinkRecord) :
    Store × List CacheOp × Nat × Nat × List String :=
  let del := sweepDeleteHashes env db (batch.map (fun r => r.hash))
  let cache := if env.kvPresent then sweepCacheRecords env batch
    else ([], 0, [])
  (del.1, cache.1, del.2.1, cache.2.1, del.2.2 ++ cache.2.2)

/-- Sequential processing of the batches (the 100 ms inter-batch delay is
wall-clock pacing and is not modelled). -/
def sweepBatches (env : SweepEnv) :
    Store → List (List LinkRecord) → Store × List CacheOp × Nat × Nat × List String
  | db, [] => (db, [], 0, 0, [])
  | db, b :: bs =>
    let hd := sweepBatch env db b
    let tl := sweepBatches env hd.1 bs
    (tl.1, hd.2.1 ++ tl.2.1, hd.2.2.1 + tl.2.2.1,
      hd.2.2.2.1 + tl.2.2.2.1, hd.2.2.2.2 ++ tl.2.2.2.2)

/-- Function `cleanupExpiredLinks`: query the expired candidates once; zero candidates
short-circuit to the zero result; otherwise process 50-element batches and
accumulate counts and error strings.  Output: final store, emitted cache
operations, and the cleanup summary. -/
def cleanupExpiredLinks (env : SweepEnv) (db : Store) (now : Int) :
    Store × List CacheOp × CleanupResult :=
  let expiredLinks := db.filter (isExpiredCandidate now)
  if expiredLinks.isEmpty then
    (db, [], { deletedCount := 0, cacheCleanedCount := 0, errors := [] })
  else
    let batches := splitIntoBatches expiredLinks 50
    let out := sweepBatches env db batches
    (out.1, out.2.1,
      { deletedCount := out.2.2.1, cacheCleanedCount := out.2.2.2.1,
        errors := out.2.2.2.2 })

/-! ### Cache-state lemmas -/

theorem applyOps_cons (c : Cache) (op : CacheOp) (ops : List CacheOp) :
    applyOps c (op :: ops) = applyOps (applyOp c op) ops := rfl

theorem cacheLookup_filter_self (c : Cache) (k : String) :
    cacheLookup (c.filter (fun e => !(e.1 == k))) k = none := by
  unfold cacheLookup
  rw [List.find?_eq_none.mpr, Option.map_none']
  intro e he
  have h2 := (List.mem_filter.mp he).2
  simp only [Bool.not_eq_true'] at h2
  simp [h2]

theorem cacheLookup_filter_none (c : Cache) (q : String × String × Nat → Bool)
    (k : String) (h : cacheLookup c k = none) :
    cacheLookup (c.filter q) k = none := by
  unfold cacheLookup at h ⊢
  rw [Option.map_eq_none'] at h
  rw [Option.map_eq_none']
  rw [List.find?_eq_none] at h ⊢
  intro e he
  exact h e (List.mem_filter.mp he).1

theorem applyOps_no_put_none (k : String) :
    ∀ (ops : List CacheOp) (c : Cache),
      (∀ v t, CacheOp.put k v t ∉ ops) → cacheLookup c k = none →
      cacheLookup (applyOps c ops) k = none := by
  intro ops
  induction ops with
  | nil => intro c _ h; exact h
  | cons op rest ih =>
    intro c hnp h
    have hnp' : ∀ v t, CacheOp.put k v t ∉ rest := fun v t hm =>
      hnp v t (List.mem_cons_of_mem _ hm)
    rw [applyOps_cons]
    cases op with
    | get key => exact ih c hnp' h
    | put key v t =>
      have hkey : key ≠ k := by
        intro hkk
        subst hkk
        exact hnp v t (List.mem_cons_self _ _)
      apply ih _ hnp'
      show cacheLookup ((key, v, t) :: c.filter (fun e => !(e.1 == key))) k = none
      unfold cacheLookup
      rw [List.find?_cons_of_neg _ (by simp [hkey])]
      have := cacheLookup_filter_none c (fun e => !(e.1 == key)) k h
      unfold cacheLookup at this
      exact this
    | del key =>
      exact ih _ hnp' (cacheLookup_filter_none c _ k h)

theorem applyOps_del_no_put_none (k : String) :
    ∀ (ops : List CacheOp) (c : Cache),
      CacheOp.del k ∈ ops → (∀ v t, CacheOp.put k v t ∉ ops) →
      cacheLookup (applyOps c ops) k = none := by
  intro ops
  induction ops with
  | nil => intro c hm _; exact absurd hm (List.not_mem_nil _)
  | cons op rest ih =>
    intro c hm hnp
    have hnp' : ∀ v t, CacheOp.put k v t ∉ rest := fun v t h =>
      hnp v t (List.mem_cons_of_mem _ h)
    rcases List.mem_cons.mp hm with heq | htl
    · rw [applyOps_cons, ← heq]
      exact applyOps_no_put_none k rest _ hnp' (cacheLookup_filter_self c k)
    · rw [applyOps_cons]
      exact ih (applyOp c op) htl hnp'

/-! ### Sweep loop lemmas -/

theorem length_filterMap_eq_countP (f : α → Option β) :
    ∀ l : List α, (l.filterMap f).length = l.countP (fun a => (f a).isSome) := by
  intro l
  induction l with
  | nil => rfl
  | cons a l ih =>
    cases hf : f a with
    | none => simp [List.filterMap_cons, hf, List.countP_cons, ih]
    | some b => simp [List.filterMap_cons, hf, List.countP_cons, ih]

theorem splitGo_flatten :
    ∀ (fuel : Nat) (l : List α) (n : Nat), 0 < n → l.length ≤ fuel →
      (splitGo fuel l n).flatten = l := by
  intro fuel
  induction fuel with
  | zero =>
    intro l n _ hl
    have : l = [] := List.length_eq_zero.mp (by omega)
    subst this
    rfl
  | succ fuel ih =>
    intro l n hn hl
    by_cases he : l.isEmpty
    · have : l = [] := List.isEmpty_iff.mp he
      subst this
      rfl
    · simp only [splitGo, he, Bool.false_eq_true, if_false]
      have hlen : (l.drop n).length ≤ fuel := by
        have h1 : l ≠ [] := fun hc => he (by simp [hc])
        have h2 : 1 ≤ l.length := by
          cases l with
          | nil => exact absurd rfl h1
          | cons x xs => simp
        simp only [List.length_drop]
        omega
      rw [List.flatten_cons, ih (l.drop n) n hn hlen, List.take_append_drop]

theorem splitIntoBatches_flatten (l : List α) (n : Nat) (hn : 0 < n) :
    (splitIntoBatches l n).flatten = l :=
  splitGo_flatten l.length l n hn (le_refl _)

theorem sweepDeleteHashes_spec (env : SweepEnv) :
    ∀ (hs : List String) (db : Store),
      (sweepDeleteHashes env db hs).2.1 =
        hs.countP (fun h => (env.deleteFailure h).isNone) ∧
      (sweepDeleteHashes env db hs).2.2 =
        hs.filterMap (fun h => (env.deleteFailure h).map
          (fun m => "Failed to delete link " ++ h ++ ": " ++ m)) := by
  intro hs
  induction hs with
  | nil => intro db; exact ⟨rfl, rfl⟩
  | cons h hs ih =>
    intro db
    cases hd : env.deleteFailure h with
    | none =>
      constructor
      · simp only [sweepDeleteHashes, hd, List.countP_cons]
        rw [(ih _).1]
        simp [hd]
      · simp only [sweepDeleteHashes, hd, List.filterMap_cons]
        rw [(ih _).2]
        simp [hd]
    | some m =>
      constructor
      · simp only [sweepDeleteHashes, hd, List.countP_cons]
        rw [(ih _).1]
        simp [hd]
      · simp only [sweepDeleteHashes, hd, List.filterMap_cons]
        rw [(ih _).2]
        simp [hd]

theorem sweepCacheRecords_spec (env : SweepEnv) :
    ∀ (rs : List LinkRecord),
      (sweepCacheRecords env rs).2.1 =
        rs.countP (fun r => (env.cacheFailure r.hash).isNone) ∧
      (sweepCacheRecords env rs).2.2 =
        rs.filterMap (fun r => (env.cacheFailure r.hash).map
          (fun m => "Failed to clear cache for " ++ r.hash ++ ": " ++ m)) := by
  intro rs
  induction rs with
  | nil => exact ⟨rfl, rfl⟩
  | cons r rs ih =>
    cases hc : env.cacheFailure r.hash with
    | none =>
      constructor
      · simp only [sweepCacheRecords, hc, List.countP_cons]
        rw [ih.1]
        simp [hc]
      · simp only [sweepCacheRecords, hc, List.filterMap_cons]
        rw [ih.2]
        simp [hc]
    | some m =>
      constructor
      · simp only [sweepCacheRecords, hc, List.countP_cons]
        rw [ih.1]
        simp [hc]
      · simp only [sweepCacheRecords, hc, List.filterMap_cons]
        rw [ih.2]
        simp [hc]

theorem sweepCacheRecords_only_del (env : SweepEnv) :
    ∀ (rs : List LinkRecord) (op : CacheOp),
      op ∈ (sweepCacheRecords env rs).1 → ∃ key, op = CacheOp.del key := by
  intro rs
  induction rs with
  | nil => intro op hm; exact absurd hm (List.not_mem_nil _)
  | cons r rs ih =>
    intro op hm
    cases hc : env.cacheFailure r.hash with
    | none =>
      simp only [sweepCacheRecords, hc] at hm
      rcases List.mem_cons.mp hm with heq | hm2
      · exact ⟨_, heq⟩
      · rcases List.mem_cons.mp hm2 with heq | hm3
        · exact ⟨_, heq⟩
        · exact ih op hm3
    | some m =>
      simp only [sweepCacheRecords, hc] at hm
      exact ih op hm

theorem sweepCacheRecords_mem_del (env : SweepEnv) :
    ∀ (rs : List LinkRecord) (r : LinkRecord), r ∈ rs →
      env.cacheFailure r.hash = none →
      CacheOp.del ("url:" ++ r.hash) ∈ (sweepCacheRecords env rs).1 ∧
      CacheOp.del ("og:" ++ r.hash) ∈ (sweepCacheRecords env rs).1 := by
  intro rs
  induction rs with
  | nil => intro r hm; exact absurd hm (List.not_mem_nil _)
  | cons x rs ih =>
    intro r hm hc
    rcases List.mem_cons.mp hm with heq | htl
    · subst heq
      simp only [sweepCacheRecords, hc]
      exact ⟨List.mem_cons_self _ _,
        List.mem_cons_of_mem _ (List.mem_cons_self _ _)⟩
    · have := ih r htl hc
      cases hx : env.cacheFailure x.hash with
      | none =>
        simp only [sweepCacheRecords, hx]
        exact ⟨List.mem_cons_of_mem _ (List.mem_cons_of_mem _ this.1),
          List.mem_cons_of_mem _ (List.mem_cons_of_mem _ this.2)⟩
      | some m =>
        simp only [sweepCacheRecords, hx]
        exact this

theorem sweepBatch_spec (env : SweepEnv) (db : Store) (batch : List LinkRecord) :
    (sweepBatch env db batch).2.2.1 =
      batch.countP (fun r => (env.deleteFailure r.hash).isNone) ∧
    (sweepBatch env db batch).2.2.2.1 =
      (if env.kvPresent then
        batch.countP (fun r => (env.cacheFailure r.hash).isNone) else 0) ∧
    (sweepBatch env db batch).2.2.2.2 =
      batch.filterMap (fun r => (env.deleteFailure r.hash).map
        (fun m => "Failed to delete link " ++ r.hash ++ ": " ++ m)) ++
      (if env.kvPresent then
        batch.filterMap (fun r => (env.cacheFailure r.hash).map
          (fun m => "Failed to clear cache for " ++ r.hash ++ ": " ++ m))
      else []) ∧
    (∀ op, op ∈ (sweepBatch env db batch).2.1 → ∃ key, op = CacheOp.del key) ∧
    (∀ r, env.kvPresent = true → r ∈ batch → env.cacheFailure r.hash = none →
      CacheOp.del ("url:" ++ r.hash) ∈ (sweepBatch env db batch).2.1 ∧
      CacheOp.del ("og:" ++ r.hash) ∈ (sweepBatch env db batch).2.1) := by
  have hdel := sweepDeleteHashes_spec env (batch.map (fun r => r.hash)) db
  have hdelcnt : (sweepDeleteHashes env db (batch.map (fun r => r.hash))).2.1 =
      batch.countP (fun r => (env.deleteFailure r.hash).isNone) := by
    rw [hdel.1, List.countP_map]
    rfl
  have hdelerr : (sweepDeleteHashes env db (batch.map (fun r => r.hash))).2.2 =
      batch.filterMap (fun r => (env.deleteFailure r.hash).map
        (fun m => "Failed to delete link " ++ r.hash ++ ": " ++ m)) := by
    rw [hdel.2, List.filterMap_map]
    rfl
  by_cases hkv : env.kvPresent
  · have hcache := sweepCacheRecords_spec env batch
    refine ⟨?_, ?_, ?_, ?_, ?_⟩
    · simp only [sweepBatch, hkv, if_true]
      exact hdelcnt
    · simp only [sweepBatch, hkv, if_true]
      exact hcache.1
    · simp only [sweepBatch, hkv, if_true]
      rw [hdelerr, hcache.2]
    · intro op hm
      simp only [sweepBatch, hkv, if_true] at hm
      exact sweepCacheRecords_only_del env batch op hm
    · intro r _ hr hc
      simp only [sweepBatch, hkv, if_true]
      exact sweepCacheRecords_mem_del env batch r hr hc
  · simp only [Bool.not_eq_true] at hkv
    refine ⟨?_, ?_, ?_, ?_, ?_⟩
    · simp only [sweepBatch, hkv, Bool.false_eq_true, if_false]
      exact hdelcnt
    · simp only [sweepBatch, hkv, Bool.false_eq_true, if_false]
    · simp only [sweepBatch, hkv, Bool.false_eq_true, if_false]
      rw [hdelerr, List.append_nil]
    · intro op hm
      simp only [sweepBatch, hkv, Bool.false_eq_true, if_false] at hm
      exact absurd hm (List.not_mem_nil _)
    · intro r hkv2 _ _
      rw [hkv] at hkv2
      exact absurd hkv2 (by simp)

theorem sweepBatches_spec (env : SweepEnv) :
    ∀ (bs : List (List LinkRecord)) (db : Store),
      (sweepBatches env db bs).2.2.1 =
        (bs.flatten).countP (fun r => (env.deleteFailure r.hash).isNone) ∧
      (sweepBatches env db bs).2.2.2.1 =
        (if env.kvPresent then
          (bs.flatten).countP (fun r => (env.cacheFailure r.hash).isNone)
        else 0) ∧
      ((sweepBatches env db bs).2.2.2.2).length =
        (bs.flatten).countP (fun r => (env.deleteFailure r.hash).isSome) +
          (if env.kvPresent then
            (bs.flatten).countP (fun r => (env.cacheFailure r.hash).isSome)
          else 0) ∧
      (∀ r m, r ∈ bs.flatten → env.deleteFailure r.hash = some m →
        ("Failed to delete link " ++ r.hash ++ ": " ++ m) ∈
          (sweepBatches env db bs).2.2.2.2) ∧
      (∀ r m, env.kvPresent = true → r ∈ bs.flatten →
        env.cacheFailure r.hash = some m →
        ("Failed to clear cache for " ++ r.hash ++ ": " ++ m) ∈
          (sweepBatches env db bs).2.2.2.2) ∧
      (∀ op, op ∈ (sweepBatches env db bs).2.1 → ∃ key, op = CacheOp.del key) ∧
      (∀ r, env.kvPresent = true → r ∈ bs.flatten →
        env.cacheFailure r.hash = none →
        CacheOp.del ("url:" ++ r.hash) ∈ (sweepBatches env db bs).2.1 ∧
        CacheOp.del ("og:" ++ r.hash) ∈ (sweepBatches env db bs).2.1) := by
  intro bs
  induction bs with
  | nil =>
    intro db
    refine ⟨rfl, by simp [sweepBatches], by simp [sweepBatches], ?_, ?_, ?_, ?_⟩
    · intro r m hm; exact absurd hm (List.not_mem_nil _)
    · intro r m _ hm; exact absurd hm (List.not_mem_nil _)
    · intro op hm; exact absurd hm (List.not_mem_nil _)
    · intro r _ hm; exact absurd hm (List.not_mem_nil _)
  | cons b bs ih =>
    intro db
    have hb := sweepBatch_spec env db b
    have htl := ih (sweepBatch env db b).1
    refine ⟨?_, ?_, ?_, ?_, ?_, ?_, ?_⟩
    · simp only [sweepBatches, List.flatten_cons, List.countP_append]
      rw [hb.1, htl.1]
    · simp only [sweepBatches, List.flatten_cons, List.countP_append]
      rw [hb.2.1, htl.2.1]
      by_cases hkv : env.kvPresent <;> simp [hkv]
    · simp only [sweepBatches, List.flatten_cons, List.countP_append,
        List.length_append]
      rw [htl.2.2.1, hb.2.2.1, List.length_append,
        length_filterMap_eq_countP]
      have hcnt : (fun r : LinkRecord =>
          ((env.deleteFailure r.hash).map
            (fun m => "Failed to delete link " ++ r.hash ++ ": " ++ m)).isSome) =
          (fun r : LinkRecord => (env.deleteFailure r.hash).isSome) := by
        funext r
        simp
      rw [hcnt]
      by_cases hkv : env.kvPresent
      · simp only [hkv, if_true, List.length_append]
        rw [length_filterMap_eq_countP]
        have hcnt2 : (fun r : LinkRecord =>
            ((env.cacheFailure r.hash).map
              (fun m => "Failed to clear cache for " ++ r.hash ++ ": " ++ m)).isSome) =
            (fun r : LinkRecord => (env.cacheFailure r.hash).isSome) := by
          funext r
          simp
        rw [hcnt2]
        omega
      · simp only [Bool.not_eq_true] at hkv
        simp only [hkv, Bool.false_eq_true, if_false, List.length_nil]
        omega
    · intro r m hr hm
      simp only [sweepBatches, List.flatten_cons] at hr ⊢
      rcases List.mem_append.mp hr with hin | hin
      · apply List.mem_append_left
        rw [hb.2.2.1]
        apply List.mem_append_left
        exact List.mem_filterMap.mpr ⟨r, hin, by simp [hm]⟩
      · exact List.mem_append_right _ (htl.2.2.2.1 r m hin hm)
    · intro r m hkv hr hm
      simp only [sweepBatches, List.flatten_cons] at hr ⊢
      rcases List.mem_append.mp hr with hin | hin
      · apply List.mem_append_left
        rw [hb.2.2.1]
        apply List.mem_append_right
        simp only [hkv, if_true]
        exact List.mem_filterMap.mpr ⟨r, hin, by simp [hm]⟩
      · exact List.mem_append_right _ (htl.2.2.2.2.1 r m hkv hin hm)
    · intro op hm
      simp only [sweepBatches] at hm
      rcases List.mem_append.mp hm with hin | hin
      · exact hb.2.2.2.1 op hin
      · exact htl.2.2.2.2.2.1 op hin
    · intro r hkv hr hc
      simp only [sweepBatches, List.flatten_cons] at hr ⊢
      rcases List.mem_append.mp hr with hin | hin
      · have := hb.2.2.2.2 r hkv hin hc
        exact ⟨List.mem_append_left _ this.1, List.mem_append_left _ this.2⟩
      · have := htl.2.2.2.2.2.2 r hkv hin hc
        exact ⟨List.mem_append_right _ this.1, List.mem_append_right _ this.2⟩

/-! ### Concrete fixtures used by counterexamples and witnesses -/

/-- A transparent stand-in for the abstract digest in concrete evaluations:
`hash = "{domain}:{code}"` verbatim. -/
def idDigest : String → String := fun s => s

def sampleRecord : LinkRecord :=
  { url := "https://a.example/x", userId := "", expiresAt := some 1000,
    hash := "s.test:c1", shortCode := "c1", domain := "s.test",
    attr := none, isDeleted := 0 }

def sampleDb : Store := [sampleRecord]

/-! ### Sweeper theorems -/

/-- C9: Sweep partial-failure tolerance: when the candidate query finds
no expired non-deleted record the sweep returns immediately with
`deletedCount = 0`, `cacheCleanedCount = 0` and no error messages; and in
general every candidate is processed regardless of its siblings — the
deleted/cache-cleaned counts equal the number of candidates whose soft-delete
(resp. cache cleanup) succeeds, the error list has exactly one entry per
failing operation, and each failing record's error string is present in the
returned list. -/
theorem sweep_zero_and_partial_failure (env : SweepEnv) (db : Store)
    (now : Int) :
    (db.filter (isExpiredCandidate now) = [] →
      cleanupExpiredLinks env db now =
        (db, [], { deletedCount := 0, cacheCleanedCount := 0, errors := [] })) ∧
    (cleanupExpiredLinks env db now).2.2.deletedCount =
      (db.filter (isExpiredCandidate now)).countP
        (fun r => (env.deleteFailure r.hash).isNone) ∧
    (cleanupExpiredLinks env db now).2.2.cacheCleanedCount =
      (if env.kvPresent then
        (db.filter (isExpiredCandidate now)).countP
          (fun r => (env.cacheFailure r.hash).isNone)
      else 0) ∧
    ((cleanupExpiredLinks env db now).2.2.errors).length =
      (db.filter (isExpiredCandidate now)).countP
        (fun r => (env.deleteFailure r.hash).isSome) +
        (if env.kvPresent then
          (db.filter (isExpiredCandidate now)).countP
            (fun r => (env.cacheFailure r.hash).isSome)
        else 0) ∧
    (∀ r m, r ∈ db.filter (isExpiredCandidate now) →
      env.deleteFailure r.hash = some m →
      ("Failed to delete link " ++ r.hash ++ ": " ++ m) ∈
        (cleanupExpiredLinks env db now).2.2.errors) ∧
    (∀ r m, env.kvPresent = true → r ∈ db.filter (isExpiredCandidate now) →
      env.cacheFailure r.hash = some m →
      ("Failed to clear cache for " ++ r.hash ++ ": " ++ m) ∈
        (cleanupExpiredLinks env db now).2.2.errors) := by
  by_cases hemp : (db.filter (isExpiredCandidate now)).isEmpty
  · have hfil : db.filter (isExpiredCandidate now) = [] :=
      List.isEmpty_iff.mp hemp
    refine ⟨fun _ => ?_, ?_, ?_, ?_, ?_, ?_⟩
    · simp only [cleanupExpiredLinks, hemp, if_true]
    · simp only [cleanupExpiredLinks, hemp, if_true]
      rw [hfil, List.countP_nil]
    · simp only [cleanupExpiredLinks, hemp, if_true]
      rw [hfil, List.countP_nil]
      by_cases hkv : env.kvPresent <;> simp [hkv]
    · simp only [cleanupExpiredLinks, hemp, if_true]
      rw [hfil, List.countP_nil, List.countP_nil]
      by_cases hkv : env.kvPresent <;> simp [hkv]
    · intro r m hr _
      rw [hfil] at hr
      exact absurd hr (List.not_mem_nil _)
    · intro r m _ hr _
      rw [hfil] at hr
      exact absurd hr (List.not_mem_nil _)
  · have hs := sweepBatches_spec env
      (splitIntoBatches (db.filter (isExpiredCandidate now)) 50) db
    have hflat :
        (splitIntoBatches (db.filter (isExpiredCandidate now)) 50).flatten =
          db.filter (isExpiredCandidate now) :=
      splitIntoBatches_flatten _ 50 (by norm_num)
    rw [hflat] at hs
    refine ⟨fun hfil => ?_, ?_, ?_, ?_, ?_, ?_⟩
    · rw [hfil] at hemp
      exact absurd rfl hemp
    · simp only [cleanupExpiredLinks, hemp, Bool.false_eq_true, if_false]
      exact hs.1
    · simp only [cleanupExpiredLinks, hemp, Bool.false_eq_true, if_false]
      exact hs.2.1
    · simp only [cleanupExpiredLinks, hemp, Bool.false_eq_true, if_false]
      exact hs.2.2.1
    · intro r m hr hm
      simp only [cleanupExpiredLinks, hemp, Bool.false_eq_true, if_false]
      exact hs.2.2.2.1 r m hr hm
    · intro r m hkv hr hm
      simp only [cleanupExpiredLinks, hemp, Bool.false_eq_true, if_false]
      exact hs.2.2.2.2.1 r m hkv hr hm

/-- A sweep environment where soft-deleting the sample record's hash throws
`"boom"` and everything else succeeds. -/
def failEnv : SweepEnv :=
  { kvPresent := true,
    deleteFailure := fun h => if h == "s.test:c1" then some "boom" else none,
    cacheFailure := fun _ => none }

/-- C8: Both cache keys of a soft-deleted record are deleted: after a
successful explicit soft-delete (`processDeleteItem` on an existing
non-deleted row with KV bound), and after the sweep soft-deletes an expired
candidate (with KV bound and its operations not failing), neither
`url:{hash}` nor `og:{hash}` remains resolvable in the cache that results
from applying the emitted operations — regardless of the prior cache
contents. -/
theorem softdelete_clears_both_cache_keys :
    (∀ (db : Store) (cache : Cache) (h : String),
      (selectNotDeletedByHash db h).isSome = true →
      (processDeleteItem true db h).result.success = true ∧
      cacheLookup (applyOps cache (processDeleteItem true db h).cacheOps)
        ("url:" ++ h) = none ∧
      cacheLookup (applyOps cache (processDeleteItem true db h).cacheOps)
        ("og:" ++ h) = none) ∧
    (∀ (env : SweepEnv) (db : Store) (cache : Cache) (now : Int)
        (r : LinkRecord),
      env.kvPresent = true → r ∈ db.filter (isExpiredCandidate now) →
      env.deleteFailure r.hash = none → env.cacheFailure r.hash = none →
      cacheLookup (applyOps cache (cleanupExpiredLinks env db now).2.1)
        ("url:" ++ r.hash) = none ∧
      cacheLookup (applyOps cache (cleanupExpiredLinks env db now).2.1)
        ("og:" ++ r.hash) = none) := by
  constructor
  · intro db cache h hfound
    obtain ⟨rec, hrec⟩ := Option.isSome_iff_exists.mp hfound
    have hops : (processDeleteItem true db h).cacheOps =
        [CacheOp.del ("url:" ++ h), CacheOp.del ("og:" ++ h)] := by
      simp [processDeleteItem, hrec]
    refine ⟨by simp [processDeleteItem, hrec], ?_, ?_⟩
    · rw [hops]
      apply applyOps_del_no_put_none
      · exact List.mem_cons_self _ _
      · intro v t hm
        simp at hm
    · rw [hops]
      apply applyOps_del_no_put_none
      · exact List.mem_cons_of_mem _ (List.mem_cons_self _ _)
      · intro v t hm
        simp at hm
  · intro env db cache now r hkv hr hdel hcache
    have hemp : ¬ (db.filter (isExpiredCandidate now)).isEmpty = true :=
      fun hc => (List.ne_nil_of_mem hr) (List.isEmpty_iff.mp hc)
    have hs := sweepBatches_spec env
      (splitIntoBatches (db.filter (isExpiredCandidate now)) 50) db
    have hflat :
        (splitIntoBatches (db.filter (isExpiredCandidate now)) 50).flatten =
          db.filter (isExpiredCandidate now) :=
      splitIntoBatches_flatten _ 50 (by norm_num)
    rw [hflat] at hs
    have hmem := hs.2.2.2.2.2.2 r hkv hr hcache
    have honly := hs.2.2.2.2.2.1
    have hnoput : ∀ (k : String) (v : String) (t : Nat),
        CacheOp.put k v t ∉
          (sweepBatches env db
            (splitIntoBatches (db.filter (isExpiredCandidate now)) 50)).2.1 := by
      intro k v t hput
      obtain ⟨key, hk⟩ := honly _ hput
      cases hk
    constructor
    · simp only [cleanupExpiredLinks, hemp, Bool.false_eq_true, if_false]
      exact applyOps_del_no_put_none _ _ cache hmem.1 (fun v t => hnoput _ v t)
    · simp only [cleanupExpiredLinks, hemp, Bool.false_eq_true, if_false]
      exact applyOps_del_no_put_none _ _ cache hmem.2 (fun v t => hnoput _ v t)

theorem sweep_zero_and_partial_failure_witness :
    sampleRecord ∈ sampleDb.filter (isExpiredCandidate 2000) ∧
    failEnv.deleteFailure sampleRecord.hash = some "boom" ∧
    ("Failed to delete link " ++ sampleRecord.hash ++ ": " ++ "boom") ∈
      (cleanupExpiredLinks failEnv sampleDb 2000).2.2.errors :=
  ⟨by decide, by decide,
    (sweep_zero_and_partial_failure failEnv sampleDb 2000).2.2.2.2.1
      sampleRecord "boom" (by decide) (by decide)⟩

theorem softdelete_clears_both_cache_keys_witness :
    (selectNotDeletedByHash sampleDb "s.test:c1").isSome = true ∧
    cacheLookup
      (applyOps [("url:" ++ "s.test:c1", "v", 3600)]
        (processDeleteItem true sampleDb "s.test:c1").cacheOps)
      ("url:" ++ "s.test:c1") = none :=
  ⟨by decide,
    (softdelete_clears_both_cache_keys.1 sampleDb
      [("url:" ++ "s.test:c1", "v", 3600)] "s.test:c1" (by decide)).2.1⟩

/-! ### Resolution-path theorems -/

/-- C1: The resolution read path of the code performs no cache operation
at all: for every request, `redirectHandler` (and likewise `ogPageHandler`)
emits an empty list of KV operations — there is neither a `url:{hash}`
lookup, nor a TTL-3600 population after a store hit, on any branch.  This
contradicts the documented read-through protocol (the claim), which the rest
of the code presupposes by populating `url:{hash}` on create. -/
theorem redirect_read_path_touches_no_cache (digest : String → String)
    (db : Store) (domain shortCode userAgent : String) (now : Int) :
    (redirectHandler digest db domain shortCode userAgent now).2 = [] ∧
    (ogPageHandler digest db domain shortCode now).2 = [] := by
  constructor
  · unfold redirectHandler
    dsimp only
    repeat' split <;> try rfl
  · unfold ogPageHandler
    dsimp only
    repeat' split <;> try rfl

/-- C2 counterexample: The claim says a record with `expiresAt ≤ now`
resolves to NOT_FOUND and that the expired read deletes the cache entry.  On
the code: at `now = expiresAt = 1000` the link still redirects (the check is
strict `now > expiresAt`), and the genuinely expired read at `now = 2000`
returns 404 while emitting no cache deletion whatsoever. -/
theorem resolve_expiry_boundary_counterexample :
    (redirectHandler idDigest sampleDb "s.test" "c1" "Mozilla/5.0" 1000).1 =
      HttpResponse.redirect "https://a.example/x" 302 ∧
    redirectHandler idDigest sampleDb "s.test" "c1" "Mozilla/5.0" 2000 =
      (HttpResponse.jsonError 404 "Short code not found or expired", []) := by
  decide

/-- C2 amended: For a stored record with a nonzero `expiresAt`, a
resolution request at time `now` returns NOT_FOUND exactly when
`expiresAt < now` (strictly; at `now = expiresAt` the link still resolves),
and the read path performs no cache-entry deletion in either case — expired
cache entries are left to the Expiration Sweeper. -/
theorem resolve_expiry_strict_no_cache_delete (digest : String → String)
    (db : Store) (domain sc ua : String) (now v : Int) (r : LinkRecord)
    (hskip : isSkipName sc = false) (hua : isCrawlerUA ua = false)
    (hfind : selectNotDeletedByHash db
      (generateHashFromDomainAndCode digest domain sc) = some r)
    (hexp : r.expiresAt = some v) (hv : v ≠ 0) :
    (v < now → redirectHandler digest db domain sc ua now =
      (.jsonError 404 "Short code not found or expired", [])) ∧
    (now ≤ v → redirectHandler digest db domain sc ua now =
      (.redirect r.url 302, [])) := by
  unfold redirectHandler
  simp only [hskip, hua, Bool.false_eq_true, if_false, hfind]
  constructor
  · intro h
    simp [isExpiredAt, hexp, hv, h]
  · intro h
    simp [isExpiredAt, hexp, hv]
    omega

theorem resolve_expiry_strict_no_cache_delete_witness :
    (1000 : Int) < 2000 ∧
    redirectHandler idDigest sampleDb "s.test" "c1" "Mozilla/5.0" 2000 =
      (.jsonError 404 "Short code not found or expired", []) :=
  ⟨by decide,
    (resolve_expiry_strict_no_cache_delete idDigest sampleDb "s.test" "c1"
      "Mozilla/5.0" 2000 1000 sampleRecord (by decide) (by decide) (by decide)
      rfl (by decide)).1 (by decide)⟩

/-- C3 counterexample: For a crawler user-agent the code answers with an
HTTP 302 redirect to the `/{shortCode}/og` route — not with a rendered
preview document — and the preview route itself renders the document fresh
from the store with zero cache operations, so no `og:{hash}` cache-aside
protection exists. -/
theorem crawler_preview_counterexample :
    redirectHandler idDigest sampleDb "s.test" "c1" "facebookexternalhit/1.1" 500 =
      (HttpResponse.redirect "/c1/og" 302, []) ∧
    ogPageHandler idDigest sampleDb "s.test" "c1" 500 =
      (HttpResponse.htmlPage (generateOgPageHtml "https://a.example/x"), []) := by
  constructor
  · decide
  · rfl

/-- C3 amended: A resolution request whose user-agent matches a crawler
signature is answered with an HTTP 302 redirect to the preview route
`/{shortCode}/og`; that route returns the rendered preview document
referencing the target URL, rebuilt from the store on every request, and
neither route performs any `og:{hash}` cache operation. -/
theorem crawler_og_flow (digest : String → String) (db : Store)
    (domain sc ua : String) (now : Int)
    (hskip : isSkipName sc = false) (hua : isCrawlerUA ua = true) :
    redirectHandler digest db domain sc ua now =
      (.redirect ("/" ++ sc ++ "/og") 302, []) ∧
    (∀ r : LinkRecord, trimIsEmpty sc = false →
      selectNotDeletedByHash db
        (generateHashFromDomainAndCode digest domain sc) = some r →
      isExpiredAt now r.expiresAt = false →
      ogPageHandler digest db domain sc now =
        (.htmlPage (generateOgPageHtml r.url), [])) := by
  constructor
  · unfold redirectHandler
    simp [hskip, hua]
  · intro r htrim hfind hexp
    unfold ogPageHandler
    simp [hskip, htrim, hfind, hexp]

theorem crawler_og_flow_witness :
    isCrawlerUA "facebookexternalhit/1.1" = true ∧
    redirectHandler idDigest sampleDb "s.test" "c1" "facebookexternalhit/1.1" 500 =
      (.redirect ("/" ++ "c1" ++ "/og") 302, []) :=
  ⟨by decide,
    (crawler_og_flow idDigest sampleDb "s.test" "c1" "facebookexternalhit/1.1"
      500 (by decide) (by decide)).1⟩

/-! ### Update-path theorems -/

/-- C7 counterexample: An update item that provides only `hash` (valid
under `updateUrlRecordSchema`, where every other field is optional) finds the
record, yet the code fails it with "No fields to update" and does **not**
invalidate the record's cache entry — contradicting the claim that in every
found-record case the cache entry is invalidated after the write. -/
theorem update_no_fields_counterexample :
    processUpdateItem true sampleDb
      { hash := "s.test:c1", url := none, userId := none,
        expiresAt := none, attr := none } =
      { store := sampleDb, cacheOps := [],
        result := { hash := "s.test:c1", success := false,
                    error := some "No fields to update" } } := by
  decide

/-- C7 amended: For every update item: an absent (or soft-deleted)
record fails with "Record not found or already deleted" leaving the store
unchanged; a found record with at least one provided field gets exactly the
provided fields written (all other fields of the row, and all other rows,
retained) followed by deletion of `url:{hash}`; a found record with no
provided fields fails with "No fields to update", leaving store and cache
untouched. -/
theorem update_patch_semantics (kv : Bool) (db : Store) (u : UpdateRecord) :
    (selectNotDeletedByHash db u.hash = none →
      processUpdateItem kv db u =
        { store := db, cacheOps := [],
          result := { hash := u.hash, success := false,
                      error := some "Record not found or already deleted" } }) ∧
    ((selectNotDeletedByHash db u.hash).isSome = true →
      hasFieldsToUpdate u = true →
      processUpdateItem kv db u =
        { store := db.map (fun r =>
            if rowNotDeleted r && r.hash == u.hash then applyUpdateFields u r
            else r),
          cacheOps := if kv then [CacheOp.del ("url:" ++ u.hash)] else [],
          result := { hash := u.hash, success := true, error := none } }) ∧
    ((selectNotDeletedByHash db u.hash).isSome = true →
      hasFieldsToUpdate u = false →
      processUpdateItem kv db u =
        { store := db, cacheOps := [],
          result := { hash := u.hash, success := false,
                      error := some "No fields to update" } }) ∧
    (∀ r : LinkRecord,
      (u.url = none → (applyUpdateFields u r).url = r.url) ∧
      (∀ x, u.url = some x → (applyUpdateFields u r).url = x) ∧
      (u.userId = none → (applyUpdateFields u r).userId = r.userId) ∧
      (∀ x, u.userId = some x → (applyUpdateFields u r).userId = x) ∧
      (u.expiresAt = none → (applyUpdateFields u r).expiresAt = r.expiresAt) ∧
      (∀ x, u.expiresAt = some x → (applyUpdateFields u r).expiresAt = some x) ∧
      (u.attr = none → (applyUpdateFields u r).attr = r.attr) ∧
      (∀ x, u.attr = some x → (applyUpdateFields u r).attr = some x) ∧
      (applyUpdateFields u r).hash = r.hash ∧
      (applyUpdateFields u r).shortCode = r.shortCode ∧
      (applyUpdateFields u r).domain = r.domain ∧
      (applyUpdateFields u r).isDeleted = r.isDeleted) := by
  refine ⟨?_, ?_, ?_, ?_⟩
  · intro h
    unfold processUpdateItem
    rw [h]
  · intro h hf
    unfold processUpdateItem
    obtain ⟨r, hr⟩ := Option.isSome_iff_exists.mp h
    rw [hr]
    simp only [hf, if_true]
    rfl
  · intro h hf
    unfold processUpdateItem
    obtain ⟨r, hr⟩ := Option.isSome_iff_exists.mp h
    rw [hr]
    simp only [hf, Bool.false_eq_true, if_false]
  · intro r
    unfold applyUpdateFields
    refine ⟨?_, ?_, ?_, ?_, ?_, ?_, ?_, ?_, rfl, rfl, rfl, rfl⟩ <;>
      first
        | (intro h; simp [h])
        | (intro x h; simp [h])

/-! ### Create-path theorems -/

/-- A fixed dummy randomness stream for concrete evaluations. -/
def zeroRand : Nat → RandInput := fun _ =>
  { timestamp := 0, random := ⟨0, by decide⟩, padRand := fun _ => ⟨0, by decide⟩ }

/-! #### Candidate-length lemmas -/

theorem toBase62Go_length_le :
    ∀ (fuel k n : Nat), n < 62 ^ k → (toBase62Go fuel n).length ≤ k := by
  intro fuel
  induction fuel with
  | zero => intro k n _; simp [toBase62Go]
  | succ fuel ih =>
    intro k n hn
    unfold toBase62Go
    split
    · simp
    · rename_i hne
      cases k with
      | zero => omega
      | succ k' =>
        have hlt : n < 62 * 62 ^ k' := by
          have := pow_succ 62 k'
          omega
        have hdiv : n / 62 < 62 ^ k' := Nat.div_lt_of_lt_mul hlt
        have := ih k' (n / 62) hdiv
        simp only [List.length_append, List.length_cons, List.length_nil]
        omega

theorem toBase62_length_le (n k : Nat) (hk : 1 ≤ k) (hn : n < 62 ^ k) :
    (toBase62 n).data.length ≤ k := by
  unfold toBase62
  split
  · have : ("0" : String).data.length = 1 := rfl
    omega
  · exact toBase62Go_length_le n k n hn

theorem padWhile_length (pads : Nat → Fin 62) (L : Nat) :
    ∀ (fuel i : Nat) (s : List Char), L ≤ s.length + fuel →
      (padWhile pads L fuel i s).length = max L s.length := by
  intro fuel
  induction fuel with
  | zero =>
    intro i s h
    unfold padWhile
    exact (max_eq_right (by omega)).symm
  | succ fuel ih =>
    intro i s h
    unfold padWhile
    split
    · rename_i hlt
      rw [ih (i + 1) (base62Char (pads i) :: s)
        (by simp only [List.length_cons]; omega)]
      simp only [List.length_cons]
      rw [max_eq_left (by omega), max_eq_left (by omega)]
    · rename_i hge
      exact (max_eq_right (by omega)).symm

/-- Every candidate `generateRandomHash` produces has exactly the requested
length (for the lengths 8–10 the generator uses): the base62 seed is at most
7 characters, the pad loop tops it up to the target, and the slice branch
never fires. -/
theorem generateRandomHash_length (ri : RandInput) (L : Nat) (hL : 8 ≤ L) :
    (generateRandomHash ri L).length = L := by
  have h1 : ri.timestamp % 1000000 < 1000000 := Nat.mod_lt _ (by norm_num)
  have h2 : (ri.random : Nat) < 1000000 := ri.random.isLt
  have hcomb : (ri.timestamp % 1000000) * 1000000 + (ri.random : Nat) < 62 ^ 7 := by
    have hup : (ri.timestamp % 1000000) * 1000000 + (ri.random : Nat) <
        1000000 * 1000000 := by nlinarith
    calc (ri.timestamp % 1000000) * 1000000 + (ri.random : Nat)
        < 1000000 * 1000000 := hup
      _ ≤ 62 ^ 7 := by norm_num
  have hsc := toBase62_length_le _ 7 (by norm_num) hcomb
  have hpad := padWhile_length ri.padRand L L 0
    (toBase62 ((ri.timestamp % 1000000) * 1000000 + (ri.random : Nat))).data
    (by omega)
  have hplen : (padWhile ri.padRand L L 0
      (toBase62 ((ri.timestamp % 1000000) * 1000000 + (ri.random : Nat))).data).length
      = L := by
    rw [hpad, max_eq_left (by omega)]
  simp only [generateRandomHash, String.length, hplen]
  simp [hplen]

/-! #### The all-collisions run of the random-candidate loop -/

/-- Closed form of the `genAttempts` event trace when every probe collides:
each attempt event, followed by the backoff-delay event exactly when the
attempt number exceeds 5. -/
def allCollideTrace (rand : Nat → RandInput) : Nat → Nat → List GenEvent
  | _, 0 => []
  | attempt, r + 1 =>
    GenEvent.attemptEv attempt (genCandidate rand attempt) (lengthForAttempt attempt) ::
      (if 5 < attempt then
        GenEvent.delayEv attempt :: allCollideTrace rand (attempt + 1) r
      else allCollideTrace rand (attempt + 1) r)

theorem genAttempts_allCollide (digest : String → String) (db : Store)
    (domain : String) (rand : Nat → RandInput) (maxR : Nat) :
    ∀ (remaining attempt : Nat),
      (∀ k, attempt ≤ k → k < attempt + remaining →
        (selectByHash db (generateHashFromDomainAndCode digest domain
          (genCandidate rand k))).isSome = true) →
      genAttempts digest db domain rand maxR attempt remaining =
        (allCollideTrace rand attempt remaining,
          .error ("Failed to generate unique hash after " ++
            toString maxR ++ " attempts")) := by
  intro remaining
  induction remaining with
  | zero => intro attempt _; rfl
  | succ r ih =>
    intro attempt h
    have hcur := h attempt (le_refl _) (by omega)
    obtain ⟨rec, hrec⟩ := Option.isSome_iff_exists.mp hcur
    have hrest := ih (attempt + 1) (fun k hk1 hk2 => h k (by omega) (by omega))
    simp only [genAttempts, hrec, allCollideTrace, hrest]
    by_cases h5 : 5 < attempt <;> simp [h5]

theorem mem_attemptEv_allCollideTrace (rand : Nat → RandInput) :
    ∀ (r a k : Nat) (sc : String) (l : Nat),
      GenEvent.attemptEv k sc l ∈ allCollideTrace rand a r ↔
        (a ≤ k ∧ k < a + r ∧ sc = genCandidate rand k ∧ l = lengthForAttempt k) := by
  intro r
  induction r with
  | zero => intro a k sc l; simp [allCollideTrace]; omega
  | succ r ih =>
    intro a k sc l
    constructor
    · intro hm
      simp only [allCollideTrace] at hm
      rcases List.mem_cons.mp hm with heq | htl
      · cases heq
        exact ⟨le_refl _, by omega, rfl, rfl⟩
      · have htl' : GenEvent.attemptEv k sc l ∈ allCollideTrace rand (a + 1) r := by
          by_cases h5 : 5 < a
          · rw [if_pos h5] at htl
            rcases List.mem_cons.mp htl with hd | ht
            · exact absurd hd (by simp)
            · exact ht
          · rwa [if_neg h5] at htl
        obtain ⟨h1, h2, h3, h4⟩ := (ih (a + 1) k sc l).mp htl'
        exact ⟨by omega, by omega, h3, h4⟩
    · rintro ⟨h1, h2, h3, h4⟩
      simp only [allCollideTrace]
      by_cases hk : k = a
      · subst hk; subst h3; subst h4
        exact List.mem_cons_self _ _
      · have hmem : GenEvent.attemptEv k sc l ∈ allCollideTrace rand (a + 1) r :=
          (ih (a + 1) k sc l).mpr ⟨by omega, by omega, h3, h4⟩
        by_cases h5 : 5 < a
        · rw [if_pos h5]
          exact List.mem_cons_of_mem _ (List.mem_cons_of_mem _ hmem)
        · rw [if_neg h5]
          exact List.mem_cons_of_mem _ hmem

theorem mem_delayEv_allCollideTrace (rand : Nat → RandInput) :
    ∀ (r a k : Nat),
      GenEvent.delayEv k ∈ allCollideTrace rand a r ↔
        (5 < k ∧ a ≤ k ∧ k < a + r) := by
  intro r
  induction r with
  | zero => intro a k; simp [allCollideTrace]; try omega
  | succ r ih =>
    intro a k
    constructor
    · intro hm
      simp only [allCollideTrace] at hm
      rcases List.mem_cons.mp hm with heq | htl
      · exact absurd heq (by simp)
      · by_cases h5 : 5 < a
        · rw [if_pos h5] at htl
          rcases List.mem_cons.mp htl with hd | ht
          · cases hd
            exact ⟨h5, le_refl _, by omega⟩
          · obtain ⟨h1, h2, h3⟩ := (ih (a + 1) k).mp ht
            exact ⟨h1, by omega, by omega⟩
        · rw [if_neg h5] at htl
          obtain ⟨h1, h2, h3⟩ := (ih (a + 1) k).mp htl
          exact ⟨h1, by omega, by omega⟩
    · rintro ⟨h1, h2, h3⟩
      simp only [allCollideTrace]
      by_cases hk : k = a
      · subst hk
        rw [if_pos h1]
        exact List.mem_cons_of_mem _ (List.mem_cons_self _ _)
      · have hmem : GenEvent.delayEv k ∈ allCollideTrace rand (a + 1) r :=
          (ih (a + 1) k).mpr ⟨h1, by omega, by omega⟩
        by_cases h5 : 5 < a
        · rw [if_pos h5]
          exact List.mem_cons_of_mem _ (List.mem_cons_of_mem _ hmem)
        · rw [if_neg h5]
          exact List.mem_cons_of_mem _ hmem

theorem eight_le_lengthForAttempt (k : Nat) : 8 ≤ lengthForAttempt k := by
  unfold lengthForAttempt
  split
  · omega
  · split <;> omega

/-- C4: On the random path (no truthy custom code), if the hash of every
candidate of the 15 attempts collides with an existing row, the create item:
leaves the store unchanged (nothing is inserted), emits no cache operation,
and fails with the generation-exhausted error.  Its generation trace contains
exactly the attempt events 1–15, whose candidate lengths follow the schedule
8 (attempts 1–5), 9 (attempts 6–10), 10 (attempts 11–15), and contains a
backoff-delay event after attempt `k` exactly for `6 ≤ k ≤ 15`. -/
theorem random_generation_exhaustion (digest : String → String)
    (rand : Nat → RandInput) (kv : Bool) (db : Store) (domain : String)
    (record : CreateRecord) (now : Int)
    (hcustom : jsTruthyStr record.hash = false)
    (hcol : ∀ k, 1 ≤ k → k ≤ 15 →
      (selectByHash db (generateHashFromDomainAndCode digest domain
        (genCandidate rand k))).isSome = true) :
    (processCreateItem digest rand kv db domain record now).store = db ∧
    (processCreateItem digest rand kv db domain record now).cacheOps = [] ∧
    (processCreateItem digest rand kv db domain record now).result.success = false ∧
    (processCreateItem digest rand kv db domain record now).result.error =
      some "Failed to generate unique hash after 15 attempts" ∧
    (∀ k sc l, GenEvent.attemptEv k sc l ∈
        (processCreateItem digest rand kv db domain record now).genTrace ↔
      (1 ≤ k ∧ k ≤ 15 ∧ sc = genCandidate rand k ∧ l = lengthForAttempt k)) ∧
    (∀ k, 1 ≤ k → k ≤ 5 →
      lengthForAttempt k = 8 ∧ (genCandidate rand k).length = 8) ∧
    (∀ k, 6 ≤ k → k ≤ 10 →
      lengthForAttempt k = 9 ∧ (genCandidate rand k).length = 9) ∧
    (∀ k, 11 ≤ k →
      lengthForAttempt k = 10 ∧ (genCandidate rand k).length = 10) ∧
    (∀ k, GenEvent.delayEv k ∈
        (processCreateItem digest rand kv db domain record now).genTrace ↔
      (6 ≤ k ∧ k ≤ 15)) := by
  have hgen : generateUniqueHash digest db domain record rand 15 =
      (allCollideTrace rand 1 15,
        .error ("Failed to generate unique hash after " ++
          toString (15 : Nat) ++ " attempts")) := by
    unfold generateUniqueHash
    rw [if_neg (by simp [hcustom])]
    exact genAttempts_allCollide digest db domain rand 15 15 1
      (fun k hk1 hk2 => hcol k hk1 (by omega))
  have hmsg : ("Failed to generate unique hash after " ++
      toString (15 : Nat) ++ " attempts") =
      "Failed to generate unique hash after 15 attempts" := by decide
  have hout : processCreateItem digest rand kv db domain record now =
      { store := db, cacheOps := [], genTrace := allCollideTrace rand 1 15,
        result := { hash := jsOrStr record.hash "unknown", success := false,
                    error := some "Failed to generate unique hash after 15 attempts" } } := by
    simp only [processCreateItem, hgen, hmsg]
  rw [hout]
  refine ⟨rfl, rfl, rfl, rfl, ?_, ?_, ?_, ?_, ?_⟩
  · intro k sc l
    rw [mem_attemptEv_allCollideTrace rand 15 1 k sc l]
    constructor
    · rintro ⟨h1, h2, h3, h4⟩; exact ⟨h1, by omega, h3, h4⟩
    · rintro ⟨h1, h2, h3, h4⟩; exact ⟨h1, by omega, h3, h4⟩
  · intro k hk1 hk2
    have hlen : lengthForAttempt k = 8 := by
      unfold lengthForAttempt
      rw [if_pos (by omega)]
    refine ⟨hlen, ?_⟩
    unfold genCandidate
    rw [hlen]
    exact generateRandomHash_length (rand k) 8 (by omega)
  · intro k hk1 hk2
    have hlen : lengthForAttempt k = 9 := by
      unfold lengthForAttempt
      rw [if_neg (by omega), if_pos (by omega)]
    refine ⟨hlen, ?_⟩
    unfold genCandidate
    rw [hlen]
    exact generateRandomHash_length (rand k) 9 (by omega)
  · intro k hk1
    have hlen : lengthForAttempt k = 10 := by
      unfold lengthForAttempt
      rw [if_neg (by omega), if_neg (by omega)]
    refine ⟨hlen, ?_⟩
    unfold genCandidate
    rw [hlen]
    exact generateRandomHash_length (rand k) 10 (by omega)
  · intro k
    rw [mem_delayEv_allCollideTrace rand 15 1 k]
    omega

/-- A constant digest and a one-row store under which every candidate hash
collides: `collideDigest` maps every input to `"H"`, the hash the stored row
carries. -/
def collideDigest : String → String := fun _ => "H"

def collideDb : Store := [{ sampleRecord with hash := "H" }]

def noCodeRec : CreateRecord :=
  { url := "https://r.example", hash := none, expiresAt := none,
    userId := none, attr := none }

theorem random_generation_exhaustion_witness :
    jsTruthyStr noCodeRec.hash = false ∧
    (processCreateItem collideDigest zeroRand true collideDb "d" noCodeRec
      100).store = collideDb ∧
    (processCreateItem collideDigest zeroRand true collideDb "d" noCodeRec
      100).result.success = false := by
  have h := random_generation_exhaustion collideDigest zeroRand true collideDb
    "d" noCodeRec 100 (by decide)
    (by intro k h1 h2; interval_cases k <;> decide)
  exact ⟨by decide, h.1, h.2.2.1⟩

/-- C5: A create item that supplies a (truthy) custom short code whose
hash already exists in the store fails immediately with the collision error:
the store is unchanged, no cache operation is emitted, and the generation
trace is empty — no retry and no alternative candidate is ever attempted. -/
theorem custom_code_collision_fails_fast (digest : String → String)
    (rand : Nat → RandInput) (kv : Bool) (db : Store) (domain : String)
    (record : CreateRecord) (now : Int) (c : String)
    (hc : record.hash = some c) (hne : c ≠ "")
    (hcol : (selectByHash db
      (generateHashFromDomainAndCode digest domain c)).isSome = true) :
    processCreateItem digest rand kv db domain record now =
      { store := db, cacheOps := [], genTrace := [],
        result := { hash := c, success := false,
                    error := some ("Custom short code \"" ++ c ++
                      "\" already exists for domain " ++ domain) } } := by
  obtain ⟨r, hr⟩ := Option.isSome_iff_exists.mp hcol
  unfold processCreateItem generateUniqueHash
  simp [hc, jsTruthyStr, hne, hr, jsOrStr]

theorem custom_code_collision_fails_fast_witness :
    (selectByHash sampleDb
      (generateHashFromDomainAndCode idDigest "s.test" "c1")).isSome = true ∧
    processCreateItem idDigest zeroRand true sampleDb "s.test"
      { url := "https://dup.example", hash := some "c1", expiresAt := none,
        userId := none, attr := none } 100 =
      { store := sampleDb, cacheOps := [], genTrace := [],
        result := { hash := "c1", success := false,
                    error := some ("Custom short code \"" ++ "c1" ++
                      "\" already exists for domain " ++ "s.test") } } :=
  ⟨by decide,
    custom_code_collision_fails_fast idDigest zeroRand true sampleDb "s.test"
      { url := "https://dup.example", hash := some "c1", expiresAt := none,
        userId := none, attr := none } 100 "c1" rfl (by decide) (by decide)⟩

/-- C10: Every record a create item successfully inserts carries
`expiresAt = some (record.expiresAt || now + 1h)`: in particular an omitted
`expiresAt`, and the JS-falsy value `0`, are both replaced by the default of
creation time plus one hour, so the create interface can never produce a
never-expiring (`expiresAt = none`) record. -/
theorem created_record_has_expiry (digest : String → String)
    (rand : Nat → RandInput) (kv : Bool) (db : Store) (domain : String)
    (record : CreateRecord) (now : Int)
    (hs : (processCreateItem digest rand kv db domain record now).result.success
      = true) :
    ∃ newRec : LinkRecord,
      (processCreateItem digest rand kv db domain record now).store =
        db ++ [newRec] ∧
      newRec.expiresAt =
        some (jsOrNum record.expiresAt (getDefaultExpiresAt now)) ∧
      (record.expiresAt = none → newRec.expiresAt = some (now + 3600000)) ∧
      (record.expiresAt = some 0 → newRec.expiresAt = some (now + 3600000)) := by
  cases hg : (generateUniqueHash digest db domain record rand 15).2 with
  | error msg =>
    simp only [processCreateItem, hg] at hs
    exact absurd hs (by simp)
  | ok pair =>
    obtain ⟨sc, h⟩ := pair
    simp only [processCreateItem, hg]
    refine ⟨_, rfl, rfl, ?_, ?_⟩
    · intro he; simp [he, jsOrNum, getDefaultExpiresAt]
    · intro he; simp [he, jsOrNum, getDefaultExpiresAt]

theorem created_record_has_expiry_witness :
    (processCreateItem idDigest zeroRand true [] "s.test"
      { url := "https://a.example", hash := some "c9", expiresAt := none,
        userId := none, attr := none } 100).result.success = true ∧
    (∃ newRec : LinkRecord,
      (processCreateItem idDigest zeroRand true [] "s.test"
        { url := "https://a.example", hash := some "c9", expiresAt := none,
          userId := none, attr := none } 100).store = [] ++ [newRec] ∧
      newRec.expiresAt = some (jsOrNum none (getDefaultExpiresAt 100)) ∧
      (none = (none : Option Int) → newRec.expiresAt = some (100 + 3600000)) ∧
      ((none : Option Int) = some 0 → newRec.expiresAt = some (100 + 3600000))) :=
  ⟨by decide,
    created_record_has_expiry idDigest zeroRand true [] "s.test"
      { url := "https://a.example", hash := some "c9", expiresAt := none,
        userId := none, attr := none } 100 (by decide)⟩

theorem update_patch_semantics_witness :
    (selectNotDeletedByHash sampleDb "s.test:c1").isSome = true ∧
    processUpdateItem true sampleDb
      { hash := "s.test:c1", url := some "https://b.example/y", userId := none,
        expiresAt := none, attr := none } =
      { store := sampleDb.map (fun r =>
          if rowNotDeleted r && r.hash == "s.test:c1" then
            applyUpdateFields
              { hash := "s.test:c1", url := some "https://b.example/y",
                userId := none, expiresAt := none, attr := none } r
          else r),
        cacheOps := [CacheOp.del ("url:" ++ "s.test:c1")],
        result := { hash := "s.test:c1", success := true, error := none } } :=
  ⟨by decide,
    by
      have h := (update_patch_semantics true sampleDb
        { hash := "s.test:c1", url := some "https://b.example/y",
          userId := none, expiresAt := none, attr := none }).2.1
        (by decide) (by decide)
      simpa using h⟩

end Shortener
